import Mathlib

/-!
Verification of the event-driven document processing accelerator:
a shallow embedding of the result canonicalizer (`process_custom_extraction`,
`extract_field_value`), the quality assessor (`assess_extraction_quality`),
the polling loop (`poll_for_results`) from `src/utils.py`, and the Cosmos DB
record-identifier derivation from `function_app.py`.

JSON values (the payloads produced by `response.json()` and consumed by the
canonicalizer) are modelled by the inductive type `JVal`; Python dictionaries
are association lists in insertion order, numbers are rationals.  Fallible
Python code (TypeError / AttributeError / KeyError / IndexError) is modelled
with `Except String`.
-/

/-- A JSON-like Python value: `None`, a number, a string, a list, or a dict
(association list in insertion order, keys unique as produced by a JSON
parser). -/
inductive JVal where
  | null
  | num (q : ℚ)
  | str (s : String)
  | arr (xs : List JVal)
  | dict (kvs : List (String × JVal))

/-- Dictionary lookup, `d[k]` / `k in d` as an association-list scan. -/
def hlookup : List (String × JVal) → String → Option JVal
  | [], _ => none
  | (k2, v) :: rest, k => if k2 = k then some v else hlookup rest k

mutual

/-- Structural size of a JSON value, used as the recursion-fuel bound for
the embedding of `extract_field_value`. -/
def jsize : JVal → Nat
  | .null => 1
  | .num _ => 1
  | .str _ => 1
  | .arr xs => 1 + jsizeL xs
  | .dict kvs => 1 + jsizeKV kvs

/-- Structural size of a list of JSON values. -/
def jsizeL : List JVal → Nat
  | [] => 1
  | x :: xs => 1 + jsize x + jsizeL xs

/-- Structural size of the entry list of a JSON object. -/
def jsizeKV : List (String × JVal) → Nat
  | [] => 1
  | p :: rest => 1 + jsize p.2 + jsizeKV rest

end

/-- Every JSON value has positive size. -/
theorem jsize_pos (v : JVal) : 1 ≤ jsize v := by
  cases v <;> simp [jsize]

/-- A member of a list of values is smaller than the list. -/
theorem mem_jsizeL {x : JVal} {xs : List JVal} (h : x ∈ xs) :
    jsize x < jsizeL xs := by
  induction xs with
  | nil => cases h
  | cons y ys ih =>
    rcases List.mem_cons.mp h with h1 | h2
    · subst h1
      simp [jsizeL]
      omega
    · have := ih h2
      simp [jsizeL]
      omega

/-- A value stored in an object entry list is smaller than the entry list. -/
theorem mem_jsizeKV {p : String × JVal} {kvs : List (String × JVal)}
    (h : p ∈ kvs) : jsize p.2 < jsizeKV kvs := by
  induction kvs with
  | nil => cases h
  | cons q rest ih =>
    rcases List.mem_cons.mp h with h1 | h2
    · subst h1
      simp [jsizeKV]
      omega
    · have := ih h2
      simp [jsizeKV]
      omega

/-- A value found by `hlookup` is smaller than the entry list holding it. -/
theorem hlookup_jsize {kvs : List (String × JVal)} {k : String} {v : JVal}
    (h : hlookup kvs k = some v) : jsize v < jsizeKV kvs := by
  induction kvs with
  | nil => simp [hlookup] at h
  | cons p rest ih =>
    obtain ⟨k2, w⟩ := p
    by_cases hk : k2 = k
    · simp [hlookup, hk] at h
      subst h
      simp [jsizeKV]
      omega
    · simp [hlookup, hk] at h
      have := ih h
      simp [jsizeKV]
      omega

/-- Check that `p` is a prefix of `l` (character lists). -/
def charsPref : List Char → List Char → Bool
  | [], _ => true
  | _ :: _, [] => false
  | a :: as, b :: bs => a = b && charsPref as bs

/-- Check that the character list `p` occurs contiguously inside `l`:
Python substring containment `p in s` for strings. -/
def charsSub (p : List Char) : List Char → Bool
  | [] => charsPref p []
  | c :: cs => charsPref p (c :: cs) || charsSub p cs

/-- Python `key in s` for a string `s`: substring containment. -/
def strHasSub (key s : String) : Bool := charsSub key.data s.data

/-- The six value keys probed by `extract_field_value`, in source order. -/
def valueKeys : List String :=
  ["content", "valueString", "valueNumber", "valueDate", "valueArray", "valueObject"]

/-- Behaviour of `extract_field_value` when `field_data` is a Python `str`:
each `key in field_data` check is a substring test, and on the first hit the
source indexes `field_data[key]`, which raises `TypeError` on a string
(string indices must be integers); if no key occurs as a substring the
function falls through and returns `None`. -/
def extractFromStr (s : String) : Except String JVal :=
  if valueKeys.any (fun k => strHasSub k s) then .error "TypeError"
  else .ok .null

/-- Behaviour of `extract_field_value` when `field_data` is a Python `list`:
`key in field_data` tests element equality (true only for an element that is
the very string `key`), and on the first hit `field_data[key]` raises
`TypeError` (list indices must be integers); otherwise returns `None`. -/
def extractFromArr (xs : List JVal) : Except String JVal :=
  if valueKeys.any (fun k => xs.any (fun v => match v with | .str s => s = k | _ => false))
  then .error "TypeError"
  else .ok .null

/-- Evaluate `f` on every element of a list, left to right, propagating the
first Python exception raised and collecting results in order (the shape of
the `for` loops in `extract_field_value` that append to an accumulator). -/
def exceptMapList {a b : Type} (f : a → Except String b) :
    List a → Except String (List b)
  | [] => .ok []
  | x :: xs =>
    match f x with
    | .error e => .error e
    | .ok v =>
      match exceptMapList f xs with
      | .error e => .error e
      | .ok vs => .ok (v :: vs)

/-- The `for obj_field, obj_value in ... .items()` loops of
`extract_field_value` (both the array-item one and the `valueObject` one):
each sub-field value is resolved by `f`, keys and order preserved,
exceptions propagating. -/
def extractObjData (f : JVal → Except String JVal) :
    List (String × JVal) → Except String (List (String × JVal))
  | [] => .ok []
  | (k, v) :: rest =>
    match f v with
    | .error e => .error e
    | .ok r =>
      match extractObjData f rest with
      | .error e => .error e
      | .ok rs => .ok ((k, r) :: rs)

/-- One array item of the `valueArray` loop, resolved by `f` (which stands
for the recursive call to `extract_field_value`): an item that is a dict
containing `valueObject` has each of its sub-fields resolved into a mapping
(`.items()` on a non-dict `valueObject` raises `AttributeError`); any other
item is itself passed to `f`. -/
def extractArrayItemWith (f : JVal → Except String JVal) (item : JVal) :
    Except String JVal :=
  match item with
  | .dict ikvs =>
    (match hlookup ikvs "valueObject" with
     | some (.dict okvs) =>
       (match extractObjData f okvs with
        | .ok ys => .ok (.dict ys)
        | .error e => .error e)
     | some _ => .error "AttributeError"
     | none => f (.dict ikvs))
  | other => f other

/-- Fuelled shallow embedding of `extract_field_value`
(src/utils.py lines 176-205).  The fuel argument models Python's recursion
depth limit; `extract_field_value` below supplies `sizeOf field_data` fuel,
and `extractFuel_irrel` proves that this can never run out (mirroring that
the Python recursion, structural on a finite JSON value, never hits the
limit for inputs it can represent).  The embedding includes the behaviour on
arguments that are not dictionaries, since the recursive call passes raw
array elements: `key in field_data` raises `TypeError` when `field_data` is
a number or `None`, is a substring test on a string, and an element-equality
test on a list.  The `valueArray` iteration follows Python: iterating a
string yields its one-character strings, iterating a dict yields its keys,
iterating a number or `None` raises `TypeError`.  A `valueObject` value that
is not a dict raises `AttributeError` at `.items()`. -/
def extractFuel : Nat → JVal → Except String JVal
  | 0, _ => .error "RecursionError"
  | fuel + 1, field_data =>
    match field_data with
    | .null => .error "TypeError"
    | .num _ => .error "TypeError"
    | .str s => extractFromStr s
    | .arr xs => extractFromArr xs
    | .dict kvs =>
      match hlookup kvs "content" with
      | some v => .ok v
      | none =>
      match hlookup kvs "valueString" with
      | some v => .ok v
      | none =>
      match hlookup kvs "valueNumber" with
      | some v => .ok v
      | none =>
      match hlookup kvs "valueDate" with
      | some v => .ok v
      | none =>
      match hlookup kvs "valueArray" with
      | some (.arr items) =>
        (match exceptMapList (extractArrayItemWith (extractFuel fuel)) items with
         | .ok ys => .ok (.arr ys)
         | .error e => .error e)
      | some (.str s) =>
        (match exceptMapList (fun c => extractFromStr (String.mk [c])) s.data with
         | .ok ys => .ok (.arr ys)
         | .error e => .error e)
      | some (.dict dkvs) =>
        (match exceptMapList extractFromStr (dkvs.map Prod.fst) with
         | .ok ys => .ok (.arr ys)
         | .error e => .error e)
      | some (.num _) => .error "TypeError"
      | some .null => .error "TypeError"
      | none =>
      match hlookup kvs "valueObject" with
      | some (.dict okvs) =>
        (match extractObjData (extractFuel fuel) okvs with
         | .ok ys => .ok (.dict ys)
         | .error e => .error e)
      | some _ => .error "AttributeError"
      | none => .ok .null

/-- `extract_field_value` (src/utils.py lines 176-205): run the fuelled
embedding with enough fuel for the whole input (`extractFuel_irrel` below
shows any fuel of at least `jsize field_data` gives the same result, so the
fuel bound is immaterial). -/
def extract_field_value (field_data : JVal) : Except String JVal :=
  extractFuel (jsize field_data) field_data

/-- `exceptMapList` only depends on the values of `f` on the list members. -/
theorem exceptMapList_congr {a b : Type} {f g : a → Except String b}
    {l : List a} (h : ∀ x ∈ l, f x = g x) :
    exceptMapList f l = exceptMapList g l := by
  induction l with
  | nil => rfl
  | cons x xs ih =>
    simp only [exceptMapList]
    rw [h x (List.mem_cons_self x xs), ih (fun y hy => h y (List.mem_cons_of_mem x hy))]

/-- `extractObjData` only depends on the resolver on the stored values. -/
theorem extractObjData_congr {f g : JVal → Except String JVal}
    {kvs : List (String × JVal)} (h : ∀ p ∈ kvs, f p.2 = g p.2) :
    extractObjData f kvs = extractObjData g kvs := by
  induction kvs with
  | nil => rfl
  | cons p rest ih =>
    obtain ⟨k, v⟩ := p
    simp only [extractObjData]
    rw [h ⟨k, v⟩ (List.mem_cons_self _ rest), ih (fun q hq => h q (List.mem_cons_of_mem _ hq))]

/-- Fuel irrelevance: any fuel of at least `jsize v` makes `extractFuel`
compute the same result, so the fuelled embedding never exhausts the fuel
supplied by `extract_field_value`. -/
theorem extractFuel_irrel : ∀ (N : Nat) (v : JVal) (m k : Nat),
    jsize v ≤ N → jsize v ≤ m → jsize v ≤ k →
    extractFuel m v = extractFuel k v := by
  intro N
  induction N with
  | zero =>
    intro v m k h1 _ _
    have := jsize_pos v
    omega
  | succ N ih =>
    intro v m k h1 h2 h3
    obtain ⟨m2, rfl⟩ : ∃ m2, m = m2 + 1 := ⟨m - 1, by have := jsize_pos v; omega⟩
    obtain ⟨k2, rfl⟩ : ∃ k2, k = k2 + 1 := ⟨k - 1, by have := jsize_pos v; omega⟩
    cases v with
    | null => rfl
    | num q => rfl
    | str s => rfl
    | arr xs => rfl
    | dict kvs =>
      have hsz : jsizeKV kvs ≤ N ∧ jsizeKV kvs ≤ m2 ∧ jsizeKV kvs ≤ k2 := by
        simp [jsize] at h1 h2 h3
        omega
      simp only [extractFuel]
      cases hc : hlookup kvs "content" with
      | some v => simp only [hc]
      | none =>
      simp only [hc]
      cases hvs : hlookup kvs "valueString" with
      | some v => simp only [hvs]
      | none =>
      simp only [hvs]
      cases hvn : hlookup kvs "valueNumber" with
      | some v => simp only [hvn]
      | none =>
      simp only [hvn]
      cases hvd : hlookup kvs "valueDate" with
      | some v => simp only [hvd]
      | none =>
      simp only [hvd]
      cases hva : hlookup kvs "valueArray" with
      | some a =>
        cases a with
        | arr items =>
          have hitems : jsizeL items < jsizeKV kvs := by
            have := hlookup_jsize hva
            simp [jsize] at this
            omega
          have hmap : exceptMapList (extractArrayItemWith (extractFuel m2)) items
              = exceptMapList (extractArrayItemWith (extractFuel k2)) items := by
            apply exceptMapList_congr
            intro item hitem
            have hitsz : jsize item < jsizeL items := mem_jsizeL hitem
            cases item with
            | dict ikvs =>
              have hiksz : jsizeKV ikvs < jsizeL items := by
                simp [jsize] at hitsz
                omega
              simp only [extractArrayItemWith]
              cases ho : hlookup ikvs "valueObject" with
              | some w =>
                cases w with
                | dict okvs =>
                  have hosz : jsizeKV okvs < jsizeKV ikvs := by
                    have := hlookup_jsize ho
                    simp [jsize] at this
                    omega
                  have hobj : extractObjData (extractFuel m2) okvs
                      = extractObjData (extractFuel k2) okvs := by
                    apply extractObjData_congr
                    intro p hp
                    have := mem_jsizeKV hp
                    exact ih p.2 m2 k2 (by omega) (by omega) (by omega)
                  simp only [hobj]
                | null => rfl
                | num q => rfl
                | str s => rfl
                | arr xs => rfl
              | none =>
                exact ih (.dict ikvs) m2 k2 (by simp [jsize]; omega)
                  (by simp [jsize]; omega) (by simp [jsize]; omega)
            | null => exact ih .null m2 k2 (by simp [jsize]; omega) (by simp [jsize]; omega) (by simp [jsize]; omega)
            | num q => exact ih (.num q) m2 k2 (by simp [jsize]; omega) (by simp [jsize]; omega) (by simp [jsize]; omega)
            | str s => exact ih (.str s) m2 k2 (by simp [jsize]; omega) (by simp [jsize]; omega) (by simp [jsize]; omega)
            | arr xs => exact ih (.arr xs) m2 k2 (by simp [jsize] at hitsz ⊢; omega) (by simp [jsize] at hitsz ⊢; omega) (by simp [jsize] at hitsz ⊢; omega)
          simp only [hva, hmap]
        | null => simp only [hva]
        | num q => simp only [hva]
        | str s => simp only [hva]
        | dict dkvs => simp only [hva]
      | none =>
      simp only [hva]
      cases hvo : hlookup kvs "valueObject" with
      | some w =>
        cases w with
        | dict okvs =>
          have hosz : jsizeKV okvs < jsizeKV kvs := by
            have := hlookup_jsize hvo
            simp [jsize] at this
            omega
          have hobj : extractObjData (extractFuel m2) okvs
              = extractObjData (extractFuel k2) okvs := by
            apply extractObjData_congr
            intro p hp
            have := mem_jsizeKV hp
            exact ih p.2 m2 k2 (by omega) (by omega) (by omega)
          simp only [hvo, hobj]
        | null => simp only [hvo]
        | num q => simp only [hvo]
        | str s => simp only [hvo]
        | arr xs => simp only [hvo]
      | none => simp only [hvo]

/-- Any fuel of at least `jsize v` computes `extract_field_value v`. -/
theorem extract_field_value_eq_fuel (v : JVal) (n : Nat) (h : jsize v ≤ n) :
    extract_field_value v = extractFuel n v :=
  extractFuel_irrel n v (jsize v) n h le_rfl h

/-- The array-item resolver of `extract_field_value`, with the recursive
call tied back to `extract_field_value` itself. -/
def extract_array_item : JVal → Except String JVal :=
  extractArrayItemWith extract_field_value

/-- With enough fuel, `extractObjData` over the fuelled resolver is
`extractObjData` over `extract_field_value`. -/
theorem extractObjData_fuel (n : Nat) (okvs : List (String × JVal))
    (h : jsizeKV okvs ≤ n) :
    extractObjData (extractFuel n) okvs = extractObjData extract_field_value okvs := by
  apply extractObjData_congr
  intro p hp
  have := mem_jsizeKV hp
  rw [extract_field_value_eq_fuel p.2 n (by omega)]

/-- With enough fuel, the fuelled array-item resolver is
`extract_array_item`. -/
theorem extractArrayItemWith_fuel (n : Nat) (item : JVal) (h : jsize item ≤ n) :
    extractArrayItemWith (extractFuel n) item = extract_array_item item := by
  cases item with
  | dict ikvs =>
    simp only [extract_array_item, extractArrayItemWith]
    cases ho : hlookup ikvs "valueObject" with
    | some w =>
      cases w with
      | dict okvs =>
        have h2 : jsizeKV okvs < jsizeKV ikvs := by
          have := hlookup_jsize ho
          simp [jsize] at this
          omega
        have h3 : jsizeKV ikvs < jsize (JVal.dict ikvs) := by
          simp [jsize]
        simp only [extractObjData_fuel n okvs (by omega)]
      | null => rfl
      | num q => rfl
      | str s => rfl
      | arr xs => rfl
    | none =>
      rw [extract_field_value_eq_fuel (.dict ikvs) n h]
  | null => simp only [extract_array_item, extractArrayItemWith]; rw [extract_field_value_eq_fuel _ n h]
  | num q => simp only [extract_array_item, extractArrayItemWith]; rw [extract_field_value_eq_fuel _ n h]
  | str s => simp only [extract_array_item, extractArrayItemWith]; rw [extract_field_value_eq_fuel _ n h]
  | arr xs => simp only [extract_array_item, extractArrayItemWith]; rw [extract_field_value_eq_fuel _ n h]

/-- `extract_field_value` on `None` raises `TypeError`
(`"content" in None` is not a valid membership test). -/
theorem extract_field_value_null : extract_field_value .null = .error "TypeError" := by
  rw [extract_field_value_eq_fuel .null 1 (by simp [jsize])]
  rfl

/-- `extract_field_value` on a bare number raises `TypeError`
(`"content" in 5` is not a valid membership test). -/
theorem extract_field_value_num (q : ℚ) :
    extract_field_value (.num q) = .error "TypeError" := by
  rw [extract_field_value_eq_fuel (.num q) 1 (by simp [jsize])]
  rfl

/-- `extract_field_value` on a bare string runs the substring checks. -/
theorem extract_field_value_str (s : String) :
    extract_field_value (.str s) = extractFromStr s := by
  rw [extract_field_value_eq_fuel (.str s) 1 (by simp [jsize])]
  rfl

/-- `extract_field_value` on a bare list runs element-equality checks. -/
theorem extract_field_value_arr (xs : List JVal) :
    extract_field_value (.arr xs) = extractFromArr xs := by
  have h : jsize (.arr xs) = jsizeL xs + 1 := by
    simp [jsize]
    omega
  rw [extract_field_value_eq_fuel (.arr xs) (jsizeL xs + 1) (by omega)]
  rfl

/-- Unfolding of `extract_field_value` on a dict, with the recursive
resolver tied back to itself: the embedding one-step equation. -/
theorem extract_field_value_dict (kvs : List (String × JVal)) :
    extract_field_value (.dict kvs) =
      (match hlookup kvs "content" with
      | some v => .ok v
      | none =>
      match hlookup kvs "valueString" with
      | some v => .ok v
      | none =>
      match hlookup kvs "valueNumber" with
      | some v => .ok v
      | none =>
      match hlookup kvs "valueDate" with
      | some v => .ok v
      | none =>
      match hlookup kvs "valueArray" with
      | some (.arr items) =>
        (match exceptMapList extract_array_item items with
         | .ok ys => .ok (.arr ys)
         | .error e => .error e)
      | some (.str s) =>
        (match exceptMapList (fun c => extractFromStr (String.mk [c])) s.data with
         | .ok ys => .ok (.arr ys)
         | .error e => .error e)
      | some (.dict dkvs) =>
        (match exceptMapList extractFromStr (dkvs.map Prod.fst) with
         | .ok ys => .ok (.arr ys)
         | .error e => .error e)
      | some (.num _) => .error "TypeError"
      | some .null => .error "TypeError"
      | none =>
      match hlookup kvs "valueObject" with
      | some (.dict okvs) =>
        (match extractObjData extract_field_value okvs with
         | .ok ys => .ok (.dict ys)
         | .error e => .error e)
      | some _ => .error "AttributeError"
      | none => .ok .null) := by
  rw [extract_field_value_eq_fuel (.dict kvs) (jsizeKV kvs + 1) (by simp [jsize]; omega)]
  simp only [extractFuel]
  cases hc : hlookup kvs "content" with
  | some v => simp only [hc]
  | none =>
  simp only [hc]
  cases hvs : hlookup kvs "valueString" with
  | some v => simp only [hvs]
  | none =>
  simp only [hvs]
  cases hvn : hlookup kvs "valueNumber" with
  | some v => simp only [hvn]
  | none =>
  simp only [hvn]
  cases hvd : hlookup kvs "valueDate" with
  | some v => simp only [hvd]
  | none =>
  simp only [hvd]
  cases hva : hlookup kvs "valueArray" with
  | some a =>
    cases a with
    | arr items =>
      have hitems : jsizeL items < jsizeKV kvs := by
        have := hlookup_jsize hva
        simp [jsize] at this
        omega
      have hmap : exceptMapList (extractArrayItemWith (extractFuel (jsizeKV kvs))) items
          = exceptMapList extract_array_item items := by
        apply exceptMapList_congr
        intro item hitem
        have := mem_jsizeL hitem
        exact extractArrayItemWith_fuel (jsizeKV kvs) item (by omega)
      simp only [hva, hmap]
    | null => simp only [hva]
    | num q => simp only [hva]
    | str s => simp only [hva]
    | dict dkvs => simp only [hva]
  | none =>
  simp only [hva]
  cases hvo : hlookup kvs "valueObject" with
  | some w =>
    cases w with
    | dict okvs =>
      have hosz : jsizeKV okvs < jsizeKV kvs := by
        have := hlookup_jsize hvo
        simp [jsize] at this
        omega
      simp only [hvo, extractObjData_fuel (jsizeKV kvs) okvs (by omega)]
    | null => simp only [hvo]
    | num q => simp only [hvo]
    | str s => simp only [hvo]
    | arr xs => simp only [hvo]
  | none => simp only [hvo]

/-- `avg_confidence = sum(confidence_values) / len(confidence_values)`
(src/utils.py line 268). -/
def avg_confidence (confidence_values : List ℚ) : ℚ :=
  confidence_values.sum / confidence_values.length

/-- `high_confidence_ratio` (src/utils.py line 269): the fraction of values
strictly above 0.8. -/
def high_confidence_ratio (confidence_values : List ℚ) : ℚ :=
  ((confidence_values.filter (fun c => decide (c > 0.8))).length : ℚ)
    / confidence_values.length

/-- `assess_extraction_quality` (src/utils.py lines 265-278). -/
def assess_extraction_quality (confidence_values : List ℚ) : String :=
  if confidence_values = [] then "no_data"
  else if avg_confidence confidence_values > 0.9
          ∧ high_confidence_ratio confidence_values > 0.8 then "excellent"
  else if avg_confidence confidence_values > 0.7
          ∧ high_confidence_ratio confidence_values > 0.6 then "good"
  else if avg_confidence confidence_values > 0.5 then "fair"
  else "poor"

/-- `len([c for c in confidence_values if c > 0.8])` (src/utils.py line 608). -/
def highConfidenceCount (confidence_values : List ℚ) : Nat :=
  (confidence_values.filter (fun c => decide (c > 0.8))).length

/-- `len([c for c in confidence_values if 0.5 <= c <= 0.8])`
(src/utils.py line 609). -/
def mediumConfidenceCount (confidence_values : List ℚ) : Nat :=
  (confidence_values.filter (fun c => decide (0.5 ≤ c ∧ c ≤ 0.8))).length

/-- `len([c for c in confidence_values if c < 0.5])` (src/utils.py line 610). -/
def lowConfidenceCount (confidence_values : List ℚ) : Nat :=
  (confidence_values.filter (fun c => decide (c < 0.5))).length

/-- Python truthiness of a JSON value: `None`, `0`, `""`, `[]`, `{}` are
falsy, everything else truthy. -/
def pyTruthy : JVal → Bool
  | .null => false
  | .num q => q ≠ 0
  | .str s => s ≠ ""
  | .arr xs => !xs.isEmpty
  | .dict kvs => !kvs.isEmpty

/-- Python `len(v)`: defined for strings, lists and dicts; raises
`TypeError` on numbers and `None`. -/
def pyLen : JVal → Except String Nat
  | .str s => .ok s.length
  | .arr xs => .ok xs.length
  | .dict kvs => .ok kvs.length
  | .num _ => .error "TypeError"
  | .null => .error "TypeError"

/-- Python `v[0]`: the head of a list, the first character of a string
(raising `IndexError` when empty); `KeyError` for a dict (the canonicalizer
only stores string keys, so integer key `0` is absent); `TypeError` for a
number or `None` (not subscriptable). -/
def pyIndex0 : JVal → Except String JVal
  | .arr [] => .error "IndexError"
  | .arr (x :: _) => .ok x
  | .str s =>
    (match s.data with
     | [] => .error "IndexError"
     | c :: _ => .ok (.str (String.mk [c])))
  | .dict _ => .error "KeyError"
  | .num _ => .error "TypeError"
  | .null => .error "TypeError"

/-- Python `key in v`: key membership for a dict, substring test for a
string, element equality for a list; `TypeError` for a number or `None`. -/
def pyIn (key : String) : JVal → Except String Bool
  | .dict kvs => .ok (hlookup kvs key).isSome
  | .str s => .ok (strHasSub key s)
  | .arr xs => .ok (xs.any (fun v => match v with | .str s => s = key | _ => false))
  | .num _ => .error "TypeError"
  | .null => .error "TypeError"

/-- Python `v[key]` for a string key: dict lookup (`KeyError` when absent);
`TypeError` for any other container or scalar. -/
def pyGetItem (v : JVal) (key : String) : Except String JVal :=
  match v with
  | .dict kvs =>
    (match hlookup kvs key with
     | some w => .ok w
     | none => .error "KeyError")
  | _ => .error "TypeError"

/-- Insertion into a Python dict (`d[k] = v`): replace the value of an
existing key in place, else append the new key at the end, preserving
insertion order. -/
def dinsert : List (String × JVal) → String → JVal → List (String × JVal)
  | [], k, v => [(k, v)]
  | (k2, w) :: rest, k, v =>
    if k2 = k then (k2, v) :: rest else (k2, w) :: dinsert rest k v

/-- The per-field loop shared by the `contents[0]["fields"]` branch
(src/utils.py lines 567-573) and the legacy `documents[0]["fields"]` branch
(lines 595-601): each entry whose data is a dict has its value resolved by
`extract_field_value` and its confidence read with default 0; non-dict
entries are skipped.  The two accumulators are the `extracted_fields` and
`confidence_scores` dicts being built. -/
def processFieldsLoop :
    List (String × JVal) → List (String × JVal) × List (String × JVal) →
    Except String (List (String × JVal) × List (String × JVal))
  | [], acc => .ok acc
  | (field_name, field_info) :: rest, (ef, cs) =>
    match field_info with
    | .dict ikvs =>
      (match extract_field_value (.dict ikvs) with
       | .error e => .error e
       | .ok field_value =>
         let field_confidence :=
           match hlookup ikvs "confidence" with
           | some c => c
           | none => .num 0
         processFieldsLoop rest
           (dinsert ef field_name field_value, dinsert cs field_name field_confidence))
    | _ => processFieldsLoop rest (ef, cs)

/-- The per-field loop of the `extractedFields` branch (src/utils.py lines
579-585): the `value` key is taken directly (default `""`), no recursive
resolution, confidence default 0; non-dict entries are skipped. -/
def extractedFieldsLoop :
    List (String × JVal) → List (String × JVal) × List (String × JVal) →
    List (String × JVal) × List (String × JVal)
  | [], acc => acc
  | (field_name, field_info) :: rest, (ef, cs) =>
    match field_info with
    | .dict ikvs =>
      let field_value :=
        match hlookup ikvs "value" with
        | some v => v
        | none => .str ""
      let field_confidence :=
        match hlookup ikvs "confidence" with
        | some c => c
        | none => .num 0
      extractedFieldsLoop rest
        (dinsert ef field_name field_value, dinsert cs field_name field_confidence)
    | _ => extractedFieldsLoop rest (ef, cs)

/-- The `summary` sub-dictionary built by `process_custom_extraction`
(src/utils.py lines 606-622). -/
structure Summary where
  total_fields_extracted : Nat
  fields_with_high_confidence : Nat
  fields_with_medium_confidence : Nat
  fields_with_low_confidence : Nat
  average_confidence : ℚ
  extraction_quality : String
deriving DecidableEq

/-- The dictionary returned by `process_custom_extraction`
(src/utils.py lines 550-555): extraction type tag, extracted field values,
confidence scores, and summary statistics. -/
structure Processed where
  extraction_type : String
  extracted_fields : List (String × JVal)
  confidence_scores : List (String × JVal)
  summary : Summary

/-- Interpret the collected confidence values as numbers, as the summary
arithmetic of src/utils.py lines 607-612 requires: comparing or summing a
non-numeric confidence raises `TypeError` in Python. -/
def toNums : List JVal → Except String (List ℚ)
  | [] => .ok []
  | .num q :: rest =>
    (match toNums rest with
     | .ok qs => .ok (q :: qs)
     | .error e => .error e)
  | _ :: _ => .error "TypeError"

/-- The summary-statistics phase of `process_custom_extraction`
(src/utils.py lines 603-622): with a non-empty confidence collection the
band counts, average and quality label are computed; otherwise all counts
are zero and the quality is `no_data`. -/
def summarize (ef cs : List (String × JVal)) : Except String Processed :=
  let confidence_values := cs.map Prod.snd
  if confidence_values.isEmpty then
    .ok { extraction_type := "custom_schema"
          extracted_fields := ef
          confidence_scores := cs
          summary :=
            { total_fields_extracted := 0
              fields_with_high_confidence := 0
              fields_with_medium_confidence := 0
              fields_with_low_confidence := 0
              average_confidence := 0
              extraction_quality := "no_data" } }
  else
    match toNums confidence_values with
    | .error e => .error e
    | .ok qs =>
      .ok { extraction_type := "custom_schema"
            extracted_fields := ef
            confidence_scores := cs
            summary :=
              { total_fields_extracted := ef.length
                fields_with_high_confidence := highConfidenceCount qs
                fields_with_medium_confidence := mediumConfidenceCount qs
                fields_with_low_confidence := lowConfidenceCount qs
                average_confidence := avg_confidence qs
                extraction_quality := assess_extraction_quality qs } }

/-- The `contents` branch of `process_custom_extraction` (src/utils.py
lines 558-585): `if contents and len(contents) > 0` (truthiness first, then
`len`, which raises `TypeError` on a number), `contents[0]`, then the
`fields` / `extractedFields` key checks on the first content item. -/
def contentsBranch (contents : JVal) :
    Except String (List (String × JVal) × List (String × JVal)) :=
  if pyTruthy contents then
    match pyLen contents with
    | .error e => .error e
    | .ok n =>
      if n > 0 then
        match pyIndex0 contents with
        | .error e => .error e
        | .ok content =>
          match pyIn "fields" content with
          | .error e => .error e
          | .ok true =>
            (match pyGetItem content "fields" with
             | .error e => .error e
             | .ok (.dict fs) => processFieldsLoop fs ([], [])
             | .ok _ => .error "AttributeError")
          | .ok false =>
            match pyIn "extractedFields" content with
            | .error e => .error e
            | .ok true =>
              (match pyGetItem content "extractedFields" with
               | .error e => .error e
               | .ok (.dict fs) => .ok (extractedFieldsLoop fs ([], []))
               | .ok _ => .error "AttributeError")
            | .ok false => .ok ([], [])
      else .ok ([], [])
  else .ok ([], [])

/-- The legacy `documents` branch of `process_custom_extraction`
(src/utils.py lines 588-601): `if documents:`, `documents[0]`,
`document.get("fields", {})` (requiring a dict receiver), and the shared
recursive per-field loop. -/
def documentsBranch (documents : JVal) :
    Except String (List (String × JVal) × List (String × JVal)) :=
  if pyTruthy documents then
    match pyIndex0 documents with
    | .error e => .error e
    | .ok document =>
      match document with
      | .dict dkvs =>
        (match (match hlookup dkvs "fields" with
                | some f => f
                | none => .dict []) with
         | .dict fs => processFieldsLoop fs ([], [])
         | _ => .error "AttributeError")
      | _ => .error "AttributeError"
  else .ok ([], [])

/-- The shape dispatch of `process_custom_extraction`: `if "contents" in
analysis_result: ... elif "documents" in analysis_result: ...` — note the
`elif`, so a present-but-empty `contents` still takes the first branch. -/
def extractMaps (analysis_result : List (String × JVal)) :
    Except String (List (String × JVal) × List (String × JVal)) :=
  match hlookup analysis_result "contents" with
  | some contents => contentsBranch contents
  | none =>
    match hlookup analysis_result "documents" with
    | some documents => documentsBranch documents
    | none => .ok ([], [])

/-- `process_custom_extraction` (src/utils.py lines 467-624): canonicalize
a raw analysis result (a JSON object, given by its entry list) into
extracted fields, confidence scores, and summary statistics. -/
def process_custom_extraction (analysis_result : List (String × JVal)) :
    Except String Processed :=
  match extractMaps analysis_result with
  | .error e => .error e
  | .ok (ef, cs) => summarize ef cs

/-- A poll response: HTTP status code and JSON body (`response.json()`). -/
structure HResp where
  code : Nat
  body : JVal

/-- Terminal outcome of the polling loop `poll_for_results`
(src/utils.py lines 433-462).  `ok` returns the extracted payload;
`httpError` models the non-200 exception; `analysisFailed` the
`Analysis failed: ...` exception (carrying the service-reported message
value); `unknownStatus` the `Unknown status: ...` exception (carrying the
case-folded status string); `timedOut` the timeout exception carrying the
reported number of seconds; `badBody` models a Python `AttributeError`
raised when the JSON body is not shaped as the code assumes (`.get` or
`.lower()` on the wrong type). -/
inductive PollResult where
  | ok (payload : JVal)
  | httpError (code : Nat)
  | analysisFailed (msg : JVal)
  | unknownStatus (status : String)
  | timedOut (seconds : Nat)
  | badBody

/-- Python `str.lower()` as used on the reported operation status: ASCII
case folding, written as a character map (the service statuses compared
against are all ASCII). -/
def pyLower (s : String) : String :=
  String.mk (s.data.map (fun c =>
    if 'A' ≤ c ∧ c ≤ 'Z' then Char.ofNat (c.toNat + 32) else c))

/-- Payload extraction on `succeeded` (src/utils.py lines 446-452): the
first present of `result`, `analyzeResult`, else the whole body. -/
def successPayload (kvs : List (String × JVal)) : JVal :=
  match hlookup kvs "result" with
  | some v => v
  | none =>
    match hlookup kvs "analyzeResult" with
    | some v => v
    | none => .dict kvs

/-- Error-message extraction on `failed` (src/utils.py line 454):
`result.get("error", {}).get("message", "Unknown error")`; a non-dict
`error` value makes the second `.get` raise `AttributeError`. -/
def failedMessage (kvs : List (String × JVal)) : Except String JVal :=
  match hlookup kvs "error" with
  | none => .ok (.str "Unknown error")
  | some (.dict ekvs) =>
    .ok (match hlookup ekvs "message" with
         | some m => m
         | none => .str "Unknown error")
  | some _ => .error "AttributeError"

/-- One run of the polling loop from the point where `retries` attempts
remain, the `i`-th GET being next (`resp i` is the response to the `i`-th
GET of the operation location).  Returns the terminal result together with
the number of GET requests performed and the number of `time.sleep`
delays taken from this point on.  Mirrors src/utils.py lines 435-462:
status is `result.get("status", "unknown").lower()`; `succeeded`, `failed`,
then `notstarted`/`running` (sleep and retry), anything else is an unknown
status; an exhausted loop reports `max_retries * retry_interval` seconds. -/
def pollAux (resp : Nat → HResp) (max_retries retry_interval : Nat) :
    Nat → Nat → PollResult × Nat × Nat
  | _, 0 => (.timedOut (max_retries * retry_interval), 0, 0)
  | i, remaining + 1 =>
    if (resp i).code ≠ 200 then (.httpError (resp i).code, 1, 0)
    else
      match (resp i).body with
      | .dict kvs =>
        (match hlookup kvs "status" with
         | some (.str s0) =>
           let status := pyLower s0
           if status = "succeeded" then (.ok (successPayload kvs), 1, 0)
           else if status = "failed" then
             (match failedMessage kvs with
              | .ok m => (.analysisFailed m, 1, 0)
              | .error _ => (.badBody, 1, 0))
           else if status = "notstarted" ∨ status = "running" then
             let next := pollAux resp max_retries retry_interval (i + 1) remaining
             (next.1, next.2.1 + 1, next.2.2 + 1)
           else (.unknownStatus status, 1, 0)
         | none =>
           (.unknownStatus "unknown", 1, 0)
         | some _ => (.badBody, 1, 0))
      | _ => (.badBody, 1, 0)

/-- `poll_for_results` (src/utils.py lines 363-462) over a sequence of
responses: run the loop with `max_retries` attempts remaining, starting at
the 0-th GET.  Defaults in the source are `max_retries=60`,
`retry_interval=2`. -/
def poll_for_results (resp : Nat → HResp) (max_retries retry_interval : Nat) :
    PollResult × Nat × Nat :=
  pollAux resp max_retries retry_interval 0 max_retries

/-- Cosmos DB identifier sanitization from `function_app.py` lines 181 and
201/217: `blob_name.replace("/", "_").replace(".", "_")`; both patterns are
single characters, so this is a character map. -/
def sanitize_blob_name (blob_name : String) : String :=
  String.mk ((blob_name.data.map (fun c => if c = '/' then '_' else c)).map
    (fun c => if c = '.' then '_' else c))

/-- Success-record identifier: `doc_id` of `function_app.py` line 181. -/
def success_doc_id (blob_name : String) : String := sanitize_blob_name blob_name

/-- Failure-record identifier: `error_id` of `function_app.py` lines
201 and 217 — the sanitized name with `"_error"` appended. -/
def error_doc_id (blob_name : String) : String :=
  sanitize_blob_name blob_name ++ "_error"

/-- Claim C9: the persisted record identifier is obtained from the blob name
by replacing every `/` and every `.` with `_` (failure records append
`_error`); the derivation is deterministic (it is a function) but not
injective — the distinct blob names `a/b` and `a.b` map to the same
identifier `a_b`, for success and for failure records alike, so an
upsert keyed by the identifier can overwrite the other document's record. -/
theorem c9_doc_id_not_injective :
    ("a/b" : String) ≠ "a.b"
    ∧ success_doc_id "a/b" = success_doc_id "a.b"
    ∧ error_doc_id "a/b" = error_doc_id "a.b"
    ∧ success_doc_id "a/b" = "a_b"
    ∧ (∀ s : String, error_doc_id s = success_doc_id s ++ "_error") :=
  ⟨by decide, rfl, rfl, rfl, fun _ => rfl⟩

/-- Claim C4 (divergence witness): the quality assessor applied to
`[0.85, 0.75, 0.82, 0.78]` returns `fair`, not the `good` the spec and the
source docstring promise — the average is 0.8 (> 0.7) but only 2 of 4
values exceed 0.8, and 0.5 is not > 0.6. -/
theorem c4_assess_example_is_fair :
    assess_extraction_quality [0.85, 0.75, 0.82, 0.78] = "fair" := by
  norm_num [assess_extraction_quality, avg_confidence, high_confidence_ratio,
    List.filter, List.sum]
  simp

/-- Claim C10: a 200-status poll response whose JSON body lacks a `status`
key makes the poller substitute `"unknown"` and fail at once with the
unknown-status error carrying `"unknown"` — one GET, no sleep, no retry,
no success. -/
theorem c10_missing_status_key (resp : Nat → HResp)
    (max_retries retry_interval i remaining : Nat)
    (kvs : List (String × JVal))
    (hcode : (resp i).code = 200)
    (hbody : (resp i).body = .dict kvs)
    (hstatus : hlookup kvs "status" = none) :
    pollAux resp max_retries retry_interval i (remaining + 1)
      = (.unknownStatus "unknown", 1, 0) := by
  simp [pollAux, hcode, hbody, hstatus]

/-- Witness for C10 at a concrete response whose body is `{}`. -/
theorem c10_missing_status_key_witness :
    pollAux (fun _ => ⟨200, .dict []⟩) 60 2 0 60
      = (.unknownStatus "unknown", 1, 0) :=
  c10_missing_status_key (fun _ => ⟨200, .dict []⟩) 60 2 0 59 [] rfl rfl rfl

/-- Claim C3: quality thresholds.  The empty list is exactly the `no_data`
case; on a non-empty list the label is `excellent` precisely when
avg > 0.9 and the high ratio > 0.8; `good` precisely when that fails but
avg > 0.7 and high ratio > 0.6; `fair` precisely when both fail but
avg > 0.5; `poor` otherwise — all comparisons strict, so a value exactly on
a threshold falls to the lower band. -/
theorem c3_assess_quality_thresholds (qs : List ℚ) :
    (assess_extraction_quality qs = "no_data" ↔ qs = [])
    ∧ (qs ≠ [] →
        ((assess_extraction_quality qs = "excellent" ↔
            avg_confidence qs > 0.9 ∧ high_confidence_ratio qs > 0.8)
        ∧ (assess_extraction_quality qs = "good" ↔
            ¬(avg_confidence qs > 0.9 ∧ high_confidence_ratio qs > 0.8)
            ∧ (avg_confidence qs > 0.7 ∧ high_confidence_ratio qs > 0.6))
        ∧ (assess_extraction_quality qs = "fair" ↔
            ¬(avg_confidence qs > 0.9 ∧ high_confidence_ratio qs > 0.8)
            ∧ ¬(avg_confidence qs > 0.7 ∧ high_confidence_ratio qs > 0.6)
            ∧ avg_confidence qs > 0.5)
        ∧ (assess_extraction_quality qs = "poor" ↔
            ¬(avg_confidence qs > 0.9 ∧ high_confidence_ratio qs > 0.8)
            ∧ ¬(avg_confidence qs > 0.7 ∧ high_confidence_ratio qs > 0.6)
            ∧ ¬(avg_confidence qs > 0.5)))) := by
  by_cases hqs : qs = []
  · subst hqs
    simp [assess_extraction_quality]
  · by_cases h1 : avg_confidence qs > 0.9 ∧ high_confidence_ratio qs > 0.8
    · simp [assess_extraction_quality, hqs, h1]
    · by_cases h2 : avg_confidence qs > 0.7 ∧ high_confidence_ratio qs > 0.6
      · simp [assess_extraction_quality, hqs, h1, h2]
      · by_cases h3 : avg_confidence qs > 0.5
        · simp [assess_extraction_quality, hqs, h1, h2, h3]
        · simp [assess_extraction_quality, hqs, h1, h2, h3]

/-- Witness for C3: the theorem applied at `[0.95, 0.92, 0.88, 0.91]`
(average 0.915 > 0.9, all four values above 0.8) yields `excellent`. -/
theorem c3_assess_quality_thresholds_witness :
    assess_extraction_quality [0.95, 0.92, 0.88, 0.91] = "excellent" :=
  (((c3_assess_quality_thresholds [0.95, 0.92, 0.88, 0.91]).2 (by simp)).1).mpr
    (by refine ⟨?_, ?_⟩ <;>
      norm_num [avg_confidence, high_confidence_ratio, List.filter, List.sum])

/-- `toNums` preserves the length of the collection. -/
theorem toNums_length (l : List JVal) (qs : List ℚ) (h : toNums l = .ok qs) :
    qs.length = l.length := by
  induction l generalizing qs with
  | nil =>
    simp [toNums] at h
    subst h
    rfl
  | cons x rest ih =>
    cases x with
    | num q =>
      simp only [toNums] at h
      cases hr : toNums rest with
      | ok qs2 =>
        rw [hr] at h
        simp at h
        subst h
        simp [ih qs2 hr]
      | error e => rw [hr] at h; simp at h
    | null => simp [toNums] at h
    | str s => simp [toNums] at h
    | arr xs => simp [toNums] at h
    | dict kvs => simp [toNums] at h

/-- Every confidence value lands in exactly one of the three bands. -/
theorem band_counts_singleton (c : ℚ) :
    highConfidenceCount [c] + mediumConfidenceCount [c] + lowConfidenceCount [c] = 1 := by
  rcases lt_or_le (0.8 : ℚ) c with h1 | h1
  · have h2 : ¬(c < 0.5) := by linarith
    have h3 : ¬(0.5 ≤ c ∧ c ≤ 0.8) := by rintro ⟨_, h⟩; linarith
    simp [highConfidenceCount, mediumConfidenceCount, lowConfidenceCount,
      List.filter, h1, h2, h3]
  · rcases lt_or_le c (0.5 : ℚ) with h2 | h2
    · have h3 : ¬((0.8 : ℚ) < c) := by linarith
      have h4 : ¬(0.5 ≤ c ∧ c ≤ 0.8) := by rintro ⟨h, _⟩; linarith
      simp [highConfidenceCount, mediumConfidenceCount, lowConfidenceCount,
        List.filter, h2, h3, h4]
    · have h3 : ¬((0.8 : ℚ) < c) := by linarith
      have h4 : ¬(c < 0.5) := by linarith
      have h5 : 0.5 ≤ c ∧ c ≤ 0.8 := ⟨h2, by linarith⟩
      simp [highConfidenceCount, mediumConfidenceCount, lowConfidenceCount,
        List.filter, h3, h4, h5]

/-- The three band counts always sum to the collection length. -/
theorem band_counts_sum (qs : List ℚ) :
    highConfidenceCount qs + mediumConfidenceCount qs + lowConfidenceCount qs
      = qs.length := by
  induction qs with
  | nil => rfl
  | cons c rest ih =>
    simp only [highConfidenceCount, mediumConfidenceCount, lowConfidenceCount,
      List.filter] at ih ⊢
    rcases lt_or_le (0.8 : ℚ) c with h1 | h1
    · have h2 : ¬(c < 0.5) := by linarith
      have h3 : ¬(0.5 ≤ c ∧ c ≤ 0.8) := by rintro ⟨_, h⟩; linarith
      simp [h1, h2, h3] at ih ⊢
      omega
    · rcases lt_or_le c (0.5 : ℚ) with h2 | h2
      · have h3 : ¬((0.8 : ℚ) < c) := by linarith
        have h4 : ¬(0.5 ≤ c ∧ c ≤ 0.8) := by rintro ⟨h, _⟩; linarith
        simp [h2, h3, h4] at ih ⊢
        omega
      · have h3 : ¬((0.8 : ℚ) < c) := by linarith
        have h4 : ¬(c < 0.5) := by linarith
        have h5 : 0.5 ≤ c ∧ c ≤ 0.8 := ⟨h2, by linarith⟩
        simp [h3, h4, h5] at ih ⊢
        omega

/-- Claim C8: the three summary bands partition the confidence values —
each value is counted in exactly one band, a value of exactly 0.8 (and
exactly 0.5) counts as medium only, and the counts stored in a computed
summary add up to the number of confidence entries. -/
theorem c8_band_partition :
    (∀ c : ℚ, highConfidenceCount [c] + mediumConfidenceCount [c]
        + lowConfidenceCount [c] = 1)
    ∧ (∀ qs : List ℚ, highConfidenceCount qs + mediumConfidenceCount qs
        + lowConfidenceCount qs = qs.length)
    ∧ highConfidenceCount [0.8] = 0 ∧ mediumConfidenceCount [0.8] = 1
    ∧ lowConfidenceCount [0.8] = 0
    ∧ highConfidenceCount [0.5] = 0 ∧ mediumConfidenceCount [0.5] = 1
    ∧ lowConfidenceCount [0.5] = 0
    ∧ (∀ ef cs p, summarize ef cs = .ok p →
        p.summary.fields_with_high_confidence
          + p.summary.fields_with_medium_confidence
          + p.summary.fields_with_low_confidence
          = p.confidence_scores.length) := by
  refine ⟨band_counts_singleton, band_counts_sum, ?_, ?_, ?_, ?_, ?_, ?_, ?_⟩
  · norm_num [highConfidenceCount, List.filter]
  · norm_num [mediumConfidenceCount, List.filter]
  · norm_num [lowConfidenceCount, List.filter]
  · norm_num [highConfidenceCount, List.filter]
  · norm_num [mediumConfidenceCount, List.filter]
  · norm_num [lowConfidenceCount, List.filter]
  · intro ef cs p h
    simp only [summarize] at h
    by_cases he : (cs.map Prod.snd).isEmpty
    · simp [he] at h
      subst h
      simp [List.isEmpty_iff] at he
      simp [he]
    · simp [he] at h
      cases ht : toNums (cs.map Prod.snd) with
      | error e => rw [ht] at h; simp at h
      | ok qs =>
        rw [ht] at h
        simp at h
        subst h
        simp only []
        rw [band_counts_sum qs, toNums_length _ _ ht, List.length_map]

/-- Concrete canonicalized output used by the C8 witness. -/
def c8Processed : Processed :=
  { extraction_type := "custom_schema"
    extracted_fields := [("a", JVal.str "x"), ("b", JVal.str "y")]
    confidence_scores := [("a", JVal.num 0.8), ("b", JVal.num 0.3)]
    summary :=
      { total_fields_extracted := 2
        fields_with_high_confidence := 0
        fields_with_medium_confidence := 1
        fields_with_low_confidence := 1
        average_confidence := 0.55
        extraction_quality := "fair" } }

/-- The C8 witness summary evaluates as stated. -/
theorem c8Processed_eval :
    summarize [("a", JVal.str "x"), ("b", JVal.str "y")]
      [("a", JVal.num 0.8), ("b", JVal.num 0.3)] = .ok c8Processed := by
  norm_num [summarize, toNums, highConfidenceCount, mediumConfidenceCount,
    lowConfidenceCount, avg_confidence, high_confidence_ratio,
    assess_extraction_quality, List.filter, List.sum, c8Processed]
  simp

/-- Witness for C8: the summary conjunct applied to a concrete two-field
confidence map. -/
theorem c8_band_partition_witness :
    c8Processed.summary.fields_with_high_confidence
      + c8Processed.summary.fields_with_medium_confidence
      + c8Processed.summary.fields_with_low_confidence
      = c8Processed.confidence_scores.length :=
  c8_band_partition.2.2.2.2.2.2.2.2 _ _ c8Processed c8Processed_eval

/-- If every remaining poll reports a `notStarted`/`running` status, the
loop performs one GET and one sleep per remaining attempt and then times
out with the full `max_retries * retry_interval` seconds. -/
theorem pollAux_all_running (resp : Nat → HResp) (max_retries retry_interval : Nat) :
    ∀ remaining i,
      (∀ j, j < remaining → (resp (i + j)).code = 200 ∧
        ∃ kvs s0, (resp (i + j)).body = .dict kvs
          ∧ hlookup kvs "status" = some (.str s0)
          ∧ (pyLower s0 = "notstarted" ∨ pyLower s0 = "running")) →
      pollAux resp max_retries retry_interval i remaining
        = (.timedOut (max_retries * retry_interval), remaining, remaining) := by
  intro remaining
  induction remaining with
  | zero => intro i _; rfl
  | succ rem ih =>
    intro i h
    obtain ⟨hcode, kvs, s0, hbody, hstatus, hrun⟩ := h 0 (Nat.succ_pos rem)
    simp only [Nat.add_zero] at hcode hbody hstatus
    have hnext := ih (i + 1) (fun j hj => by
      have := h (j + 1) (by omega)
      simpa [Nat.add_assoc, Nat.add_comm 1 j] using this)
    have hs : pyLower s0 ≠ "succeeded" ∧ pyLower s0 ≠ "failed" := by
      rcases hrun with h1 | h1 <;> rw [h1] <;> exact ⟨by decide, by decide⟩
    simp only [pollAux, hcode, hbody, hstatus]
    simp [hs.1, hs.2, hrun, hnext]

/-- Claim C2: the polling state machine.  Over any sequence of 200-status
responses: a `notStarted`/`running` status (case-insensitively) records one
sleep of the retry interval and continues with the next GET; `succeeded`
returns the first present of `result`, `analyzeResult`, or the whole body,
in that order; `failed` raises the analysis-failure error carrying the
service message (default `Unknown error` when absent); any other status
raises the unknown-status error carrying that status (case-folded); and
`maxAttempts` polls without a terminal status time out reporting
`maxAttempts * intervalSeconds` seconds after `maxAttempts` GETs and
`maxAttempts` sleeps.  In particular `[running, running, succeeded]`
performs exactly 3 GETs and exactly 2 sleeps. -/
theorem c2_poller_state_machine (resp : Nat → HResp) (max_retries retry_interval : Nat) :
    (∀ i rem kvs s0, (resp i).code = 200 → (resp i).body = .dict kvs →
      hlookup kvs "status" = some (.str s0) →
      (pyLower s0 = "notstarted" ∨ pyLower s0 = "running") →
      pollAux resp max_retries retry_interval i (rem + 1)
        = ((pollAux resp max_retries retry_interval (i + 1) rem).1,
           (pollAux resp max_retries retry_interval (i + 1) rem).2.1 + 1,
           (pollAux resp max_retries retry_interval (i + 1) rem).2.2 + 1))
    ∧ (∀ i rem kvs s0, (resp i).code = 200 → (resp i).body = .dict kvs →
      hlookup kvs "status" = some (.str s0) → pyLower s0 = "succeeded" →
      pollAux resp max_retries retry_interval i (rem + 1)
        = (.ok (successPayload kvs), 1, 0))
    ∧ (∀ kvs v, (hlookup kvs "result" = some v → successPayload kvs = v)
        ∧ (hlookup kvs "result" = none → hlookup kvs "analyzeResult" = some v →
            successPayload kvs = v)
        ∧ (hlookup kvs "result" = none → hlookup kvs "analyzeResult" = none →
            successPayload kvs = .dict kvs))
    ∧ (∀ i rem kvs s0, (resp i).code = 200 → (resp i).body = .dict kvs →
      hlookup kvs "status" = some (.str s0) → pyLower s0 = "failed" →
      hlookup kvs "error" = none →
      pollAux resp max_retries retry_interval i (rem + 1)
        = (.analysisFailed (.str "Unknown error"), 1, 0))
    ∧ (∀ i rem kvs s0 ekvs m, (resp i).code = 200 → (resp i).body = .dict kvs →
      hlookup kvs "status" = some (.str s0) → pyLower s0 = "failed" →
      hlookup kvs "error" = some (.dict ekvs) → hlookup ekvs "message" = some m →
      pollAux resp max_retries retry_interval i (rem + 1)
        = (.analysisFailed m, 1, 0))
    ∧ (∀ i rem kvs s0, (resp i).code = 200 → (resp i).body = .dict kvs →
      hlookup kvs "status" = some (.str s0) →
      pyLower s0 ≠ "succeeded" → pyLower s0 ≠ "failed" →
      pyLower s0 ≠ "notstarted" → pyLower s0 ≠ "running" →
      pollAux resp max_retries retry_interval i (rem + 1)
        = (.unknownStatus (pyLower s0), 1, 0))
    ∧ ((∀ j, j < max_retries → (resp j).code = 200 ∧
        ∃ kvs s0, (resp j).body = .dict kvs
          ∧ hlookup kvs "status" = some (.str s0)
          ∧ (pyLower s0 = "notstarted" ∨ pyLower s0 = "running")) →
      poll_for_results resp max_retries retry_interval
        = (.timedOut (max_retries * retry_interval), max_retries, max_retries))
    ∧ poll_for_results
        (fun i => if i < 2 then ⟨200, .dict [("status", .str "running")]⟩
                  else ⟨200, .dict [("status", .str "succeeded"), ("result", .str "R")]⟩)
        60 2
        = (.ok (.str "R"), 3, 2) := by
  refine ⟨?_, ?_, ?_, ?_, ?_, ?_, ?_, ?_⟩
  · intro i rem kvs s0 hcode hbody hstatus hrun
    have hs : pyLower s0 ≠ "succeeded" ∧ pyLower s0 ≠ "failed" := by
      rcases hrun with h1 | h1 <;> rw [h1] <;> exact ⟨by decide, by decide⟩
    simp only [pollAux, hcode, hbody, hstatus]
    simp [hs.1, hs.2, hrun]
  · intro i rem kvs s0 hcode hbody hstatus hsucc
    simp only [pollAux, hcode, hbody, hstatus]
    simp [hsucc]
  · intro kvs v
    refine ⟨?_, ?_, ?_⟩
    · intro h; simp [successPayload, h]
    · intro h1 h2; simp [successPayload, h1, h2]
    · intro h1 h2; simp [successPayload, h1, h2]
  · intro i rem kvs s0 hcode hbody hstatus hfail herr
    have hs : pyLower s0 ≠ "succeeded" := by rw [hfail]; decide
    simp only [pollAux, hcode, hbody, hstatus]
    simp [hs, hfail, failedMessage, herr]
  · intro i rem kvs s0 ekvs m hcode hbody hstatus hfail herr hmsg
    have hs : pyLower s0 ≠ "succeeded" := by rw [hfail]; decide
    simp only [pollAux, hcode, hbody, hstatus]
    simp [hs, hfail, failedMessage, herr, hmsg]
  · intro i rem kvs s0 hcode hbody hstatus h1 h2 h3 h4
    simp only [pollAux, hcode, hbody, hstatus]
    simp [h1, h2, h3, h4]
  · intro h
    exact pollAux_all_running resp max_retries retry_interval max_retries 0
      (fun j hj => by simpa using h j hj)
  · rfl

/-- Witness for C2: the timeout conjunct applied to an all-`running`
response sequence with 2 attempts of 3 seconds. -/
theorem c2_poller_state_machine_witness :
    poll_for_results (fun _ => ⟨200, .dict [("status", .str "running")]⟩) 2 3
      = (.timedOut 6, 2, 2) := by
  have h := (c2_poller_state_machine
    (fun _ => ⟨200, .dict [("status", .str "running")]⟩) 2 3).2.2.2.2.2.2.1
  simpa using h (fun j hj =>
    ⟨rfl, [("status", .str "running")], "running", rfl, rfl, Or.inr rfl⟩)

/-- Claim C5: the recursive value resolver checks the keys `content`,
`valueString`, `valueNumber`, `valueDate` in that exact order and returns
the stored value verbatim; then `valueArray` resolves element-wise in order
(a mapping element containing `valueObject` has each sub-field recursively
resolved into a mapping, any other element is itself recursively resolved);
then `valueObject` resolves each sub-field into a mapping; and when none of
the six keys is present the result is `None`.  The two round-trip examples:
a `valueObject` of two scalar sub-fields resolves to the two-key mapping of
the literal scalars, and a `valueArray` of two `valueObject` entries
resolves to the ordered two-element sequence of mappings. -/
theorem c5_resolver_priority :
    (∀ kvs v, hlookup kvs "content" = some v →
      extract_field_value (.dict kvs) = .ok v)
    ∧ (∀ kvs v, hlookup kvs "content" = none →
      hlookup kvs "valueString" = some v →
      extract_field_value (.dict kvs) = .ok v)
    ∧ (∀ kvs v, hlookup kvs "content" = none →
      hlookup kvs "valueString" = none →
      hlookup kvs "valueNumber" = some v →
      extract_field_value (.dict kvs) = .ok v)
    ∧ (∀ kvs v, hlookup kvs "content" = none →
      hlookup kvs "valueString" = none →
      hlookup kvs "valueNumber" = none →
      hlookup kvs "valueDate" = some v →
      extract_field_value (.dict kvs) = .ok v)
    ∧ (∀ kvs items, hlookup kvs "content" = none →
      hlookup kvs "valueString" = none →
      hlookup kvs "valueNumber" = none →
      hlookup kvs "valueDate" = none →
      hlookup kvs "valueArray" = some (.arr items) →
      extract_field_value (.dict kvs)
        = (match exceptMapList extract_array_item items with
           | .ok ys => .ok (.arr ys)
           | .error e => .error e))
    ∧ (∀ ikvs okvs, hlookup ikvs "valueObject" = some (.dict okvs) →
      extract_array_item (.dict ikvs)
        = (match extractObjData extract_field_value okvs with
           | .ok ys => .ok (.dict ys)
           | .error e => .error e))
    ∧ (∀ item, (match item with
        | .dict ikvs => hlookup ikvs "valueObject" = none
        | _ => True) →
      extract_array_item item = extract_field_value item)
    ∧ (∀ f : JVal → Except String JVal, exceptMapList f [] = .ok [])
    ∧ (∀ (f : JVal → Except String JVal) item rest v vs, f item = .ok v →
      exceptMapList f rest = .ok vs →
      exceptMapList f (item :: rest) = .ok (v :: vs))
    ∧ (∀ kvs okvs, hlookup kvs "content" = none →
      hlookup kvs "valueString" = none →
      hlookup kvs "valueNumber" = none →
      hlookup kvs "valueDate" = none →
      hlookup kvs "valueArray" = none →
      hlookup kvs "valueObject" = some (.dict okvs) →
      extract_field_value (.dict kvs)
        = (match extractObjData extract_field_value okvs with
           | .ok ys => .ok (.dict ys)
           | .error e => .error e))
    ∧ (∀ (k : String) (v : JVal) rest r rs, extract_field_value v = .ok r →
      extractObjData extract_field_value rest = .ok rs →
      extractObjData extract_field_value ((k, v) :: rest) = .ok ((k, r) :: rs))
    ∧ (∀ kvs, hlookup kvs "content" = none →
      hlookup kvs "valueString" = none →
      hlookup kvs "valueNumber" = none →
      hlookup kvs "valueDate" = none →
      hlookup kvs "valueArray" = none →
      hlookup kvs "valueObject" = none →
      extract_field_value (.dict kvs) = .ok .null)
    ∧ extract_field_value (.dict [("valueObject", .dict
        [("a", .dict [("valueString", .str "x")]),
         ("b", .dict [("valueNumber", .num 5)])])])
      = .ok (.dict [("a", .str "x"), ("b", .num 5)])
    ∧ extract_field_value (.dict [("valueArray", .arr
        [.dict [("valueObject", .dict [("a", .dict [("valueString", .str "x")])])],
         .dict [("valueObject", .dict [("b", .dict [("valueNumber", .num 5)])])]])])
      = .ok (.arr [.dict [("a", .str "x")], .dict [("b", .num 5)]]) := by
  refine ⟨?_, ?_, ?_, ?_, ?_, ?_, ?_, ?_, ?_, ?_, ?_, ?_, ?_, ?_⟩
  · intro kvs v h1
    rw [extract_field_value_dict]
    simp [h1]
  · intro kvs v h1 h2
    rw [extract_field_value_dict]
    simp [h1, h2]
  · intro kvs v h1 h2 h3
    rw [extract_field_value_dict]
    simp [h1, h2, h3]
  · intro kvs v h1 h2 h3 h4
    rw [extract_field_value_dict]
    simp [h1, h2, h3, h4]
  · intro kvs items h1 h2 h3 h4 h5
    rw [extract_field_value_dict]
    simp [h1, h2, h3, h4, h5]
  · intro ikvs okvs h
    simp [extract_array_item, extractArrayItemWith, h]
  · intro item h
    cases item with
    | dict ikvs => simp [extract_array_item, extractArrayItemWith, h]
    | null => rfl
    | num q => rfl
    | str s => rfl
    | arr xs => rfl
  · intro f
    rfl
  · intro f item rest v vs h1 h2
    simp [exceptMapList, h1, h2]
  · intro kvs okvs h1 h2 h3 h4 h5 h6
    rw [extract_field_value_dict]
    simp [h1, h2, h3, h4, h5, h6]
  · intro k v rest r rs h1 h2
    simp [extractObjData, h1, h2]
  · intro kvs h1 h2 h3 h4 h5 h6
    rw [extract_field_value_dict]
    simp [h1, h2, h3, h4, h5, h6]
  · simp [extract_field_value_dict, extractObjData, hlookup]
  · simp [extract_field_value_dict, extract_array_item, extractArrayItemWith,
      extractObjData, exceptMapList, hlookup]

/-- Witness for C5: the priority chain applied to a concrete field whose
`content` and `valueString` are both present — `content` wins. -/
theorem c5_resolver_priority_witness :
    extract_field_value (.dict [("valueString", .str "ignored"),
      ("content", .str "raw")]) = .ok (.str "raw") :=
  c5_resolver_priority.1 [("valueString", .str "ignored"), ("content", .str "raw")]
    (.str "raw") rfl

/-- Lists of JSON values have positive size. -/
theorem jsizeL_pos (xs : List JVal) : 1 ≤ jsizeL xs := by
  cases xs with
  | nil => simp [jsizeL]
  | cons x rest =>
    simp [jsizeL]
    omega

/-- Object entry lists have positive size. -/
theorem jsizeKV_pos (kvs : List (String × JVal)) : 1 ≤ jsizeKV kvs := by
  cases kvs with
  | nil => simp [jsizeKV]
  | cons p rest =>
    simp [jsizeKV]
    omega

mutual

/-- Well-formed field data for the recursive resolver: a mapping whose
`valueArray` entry, when present, is a list of well-formed items, and whose
`valueObject` entry, when present, is a mapping of well-formed field data.
This is the fragment of nested object/array field data (arbitrary depth)
on which the spec asserts the resolver total. -/
inductive WFField : JVal → Prop where
  | mk (kvs : List (String × JVal))
      (harr : ∀ xs, hlookup kvs "valueArray" = some (JVal.arr xs) →
        ∀ it ∈ xs, WFItem it)
      (harr2 : ∀ a, hlookup kvs "valueArray" = some a →
        ∃ xs, a = JVal.arr xs)
      (hobj : ∀ os, hlookup kvs "valueObject" = some (JVal.dict os) →
        ∀ p ∈ os, WFField p.2)
      (hobj2 : ∀ o, hlookup kvs "valueObject" = some o →
        ∃ os, o = JVal.dict os) :
      WFField (JVal.dict kvs)

/-- Well-formed array item: either a mapping containing a `valueObject`
mapping of well-formed sub-fields, or itself well-formed field data. -/
inductive WFItem : JVal → Prop where
  | obj (ikvs os : List (String × JVal))
      (hlk : hlookup ikvs "valueObject" = some (JVal.dict os))
      (h : ∀ p ∈ os, WFField p.2) : WFItem (JVal.dict ikvs)
  | fld (v : JVal) (h : WFField v) : WFItem v

end

/-- Totality of the resolver on well-formed field data: by induction on
size, `extract_field_value` and its two loops always succeed. -/
theorem extract_total : ∀ N : Nat,
    (∀ okvs, jsizeKV okvs ≤ N → (∀ p ∈ okvs, WFField p.2) →
      ∃ rs, extractObjData extract_field_value okvs = .ok rs)
    ∧ (∀ items, jsizeL items ≤ N → (∀ it ∈ items, WFItem it) →
      ∃ rs, exceptMapList extract_array_item items = .ok rs)
    ∧ (∀ v, jsize v ≤ N → WFField v → ∃ r, extract_field_value v = .ok r) := by
  intro N
  induction N with
  | zero =>
    refine ⟨fun okvs h _ => ?_, fun items h _ => ?_, fun v h hwf => ?_⟩
    · have := jsizeKV_pos okvs; omega
    · have := jsizeL_pos items; omega
    · have := jsize_pos v; omega
  | succ N ih =>
    obtain ⟨ih3, ih2, ih1⟩ := ih
    have hp3 : ∀ okvs, jsizeKV okvs ≤ N + 1 → (∀ p ∈ okvs, WFField p.2) →
        ∃ rs, extractObjData extract_field_value okvs = .ok rs := by
      intro okvs
      induction okvs with
      | nil => exact fun _ _ => ⟨[], rfl⟩
      | cons p rest ihr =>
        intro hsz hwf
        obtain ⟨k, v⟩ := p
        have hszv : jsize v ≤ N := by
          have h0 := @mem_jsizeKV (k, v) ((k, v) :: rest) (List.mem_cons_self _ _)
          simp at h0
          omega
        obtain ⟨r, hr⟩ := ih1 v hszv (hwf (k, v) (List.mem_cons_self _ _))
        obtain ⟨rs, hrs⟩ := ihr (by simp [jsizeKV] at hsz ⊢; omega)
          (fun q hq => hwf q (List.mem_cons_of_mem _ hq))
        exact ⟨(k, r) :: rs, by simp [extractObjData, hr, hrs]⟩
    have hp2 : ∀ items, jsizeL items ≤ N + 1 → (∀ it ∈ items, WFItem it) →
        ∃ rs, exceptMapList extract_array_item items = .ok rs := by
      intro items
      induction items with
      | nil => exact fun _ _ => ⟨[], rfl⟩
      | cons item rest ihr =>
        intro hsz hwf
        have hszit : jsize item < jsizeL (item :: rest) :=
          mem_jsizeL (List.mem_cons_self _ _)
        have hv : ∃ v, extract_array_item item = .ok v := by
          cases hwf item (List.mem_cons_self _ _) with
          | obj ikvs os hlk hos =>
            have h1 : jsizeKV os ≤ N + 1 := by
              have h2 := hlookup_jsize hlk
              simp [jsize] at h2 hszit
              omega
            obtain ⟨rs2, hrs2⟩ := hp3 os h1 hos
            exact ⟨.dict rs2, by simp [extract_array_item, extractArrayItemWith, hlk, hrs2]⟩
          | fld v2 hwf2 =>
            cases hwf2 with
            | mk ikvs harr harr2 hobj hobj2 =>
              cases ho : hlookup ikvs "valueObject" with
              | some o =>
                obtain ⟨os, rfl⟩ := hobj2 o ho
                have hos := hobj os ho
                have h1 : jsizeKV os ≤ N + 1 := by
                  have h2 := hlookup_jsize ho
                  simp [jsize] at h2 hszit
                  omega
                obtain ⟨rs2, hrs2⟩ := hp3 os h1 hos
                exact ⟨.dict rs2,
                  by simp [extract_array_item, extractArrayItemWith, ho, hrs2]⟩
              | none =>
                obtain ⟨r, hr⟩ := ih1 (.dict ikvs) (by omega)
                  (WFField.mk ikvs harr harr2 hobj hobj2)
                exact ⟨r, by simp [extract_array_item, extractArrayItemWith, ho, hr]⟩
        obtain ⟨v, hv⟩ := hv
        obtain ⟨vs, hvs⟩ := ihr (by simp [jsizeL] at hsz ⊢; omega)
          (fun it2 h2 => hwf it2 (List.mem_cons_of_mem _ h2))
        exact ⟨v :: vs, by simp [exceptMapList, hv, hvs]⟩
    have hp1 : ∀ v, jsize v ≤ N + 1 → WFField v → ∃ r, extract_field_value v = .ok r := by
      intro v hsz hwf
      cases hwf with
      | mk kvs harr harr2 hobj hobj2 =>
        have hkv : jsizeKV kvs ≤ N := by simp [jsize] at hsz; omega
        rw [extract_field_value_dict]
        cases hc : hlookup kvs "content" with
        | some w => exact ⟨w, by simp [hc]⟩
        | none =>
        cases hs1 : hlookup kvs "valueString" with
        | some w => exact ⟨w, by simp [hc, hs1]⟩
        | none =>
        cases hs2 : hlookup kvs "valueNumber" with
        | some w => exact ⟨w, by simp [hc, hs1, hs2]⟩
        | none =>
        cases hs3 : hlookup kvs "valueDate" with
        | some w => exact ⟨w, by simp [hc, hs1, hs2, hs3]⟩
        | none =>
        cases hva : hlookup kvs "valueArray" with
        | some a =>
          obtain ⟨xs, rfl⟩ := harr2 a hva
          have hxs := harr xs hva
          have h1 : jsizeL xs ≤ N + 1 := by
            have h2 := hlookup_jsize hva
            simp [jsize] at h2
            omega
          obtain ⟨rs, hrs⟩ := hp2 xs h1 hxs
          exact ⟨.arr rs, by simp [hc, hs1, hs2, hs3, hva, hrs]⟩
        | none =>
        cases hvo : hlookup kvs "valueObject" with
        | some o =>
          obtain ⟨os, rfl⟩ := hobj2 o hvo
          have hos := hobj os hvo
          have h1 : jsizeKV os ≤ N + 1 := by
            have h2 := hlookup_jsize hvo
            simp [jsize] at h2
            omega
          obtain ⟨rs, hrs⟩ := hp3 os h1 hos
          exact ⟨.dict rs, by simp [hc, hs1, hs2, hs3, hva, hvo, hrs]⟩
        | none => exact ⟨.null, by simp [hc, hs1, hs2, hs3, hva, hvo]⟩
    exact ⟨hp3, hp2, hp1⟩

/-- Counterexample to C6 as stated: a `valueArray` containing the bare
number `5` makes the resolver raise `TypeError` (Python evaluates
`"content" in 5`), not return the scalar; and a bare string element
resolves to `None`, not to the string itself. -/
theorem c6_counterexample :
    extract_field_value (.dict [("valueArray", .arr [.num 5])]) = .error "TypeError"
    ∧ extract_field_value (.dict [("valueArray", .arr [.str "foo"])])
        = .ok (.arr [.null])
    ∧ JVal.null ≠ JVal.str "foo" := by
  refine ⟨?_, ?_, by intro h; cases h⟩
  · simp [extract_field_value_dict, extract_array_item, extractArrayItemWith,
      exceptMapList, extract_field_value_num, hlookup]
  · simp [extract_field_value_dict, extract_array_item, extractArrayItemWith,
      exceptMapList, extract_field_value_str, extractFromStr, hlookup,
      strHasSub, charsSub, charsPref, valueKeys]

/-- Claim C6 as amended: the resolver is total (no error, arbitrary depth)
on well-formed nested object/array field data — every element of a
`valueArray` that is a mapping (object items and scalar-valued field
mappings alike) resolves without error; but a bare-number element raises
`TypeError`, and a bare-string element resolves to `None` whenever no value
key name occurs inside it as a substring. -/
theorem c6_resolver_totality :
    (∀ v, WFField v → ∃ r, extract_field_value v = .ok r)
    ∧ (∀ q : ℚ, extract_field_value (.num q) = .error "TypeError")
    ∧ (∀ s : String, valueKeys.all (fun k => !strHasSub k s) = true →
        extract_field_value (.str s) = .ok .null) := by
  refine ⟨?_, extract_field_value_num, ?_⟩
  · intro v hwf
    exact (extract_total (jsize v)).2.2 v le_rfl hwf
  · intro s h
    rw [extract_field_value_str]
    simp only [List.all_eq_true] at h
    have h2 : valueKeys.any (fun k => strHasSub k s) = false := by
      simp only [List.any_eq_false]
      intro k hk
      have := h k hk
      simp at this
      simp [this]
    simp [extractFromStr, h2]

/-- Witness for C6: totality applied at a concrete scalar field mapping,
and the `None` result on the concrete bare string `foo`. -/
theorem c6_resolver_totality_witness :
    extract_field_value (.str "foo") = .ok .null
    ∧ (extract_field_value (.dict [("valueString", .str "x")])).isOk = true := by
  constructor
  · exact c6_resolver_totality.2.2 "foo" (by decide)
  · obtain ⟨r, hr⟩ := c6_resolver_totality.1 (.dict [("valueString", .str "x")])
      (WFField.mk _ (by intro xs h; simp [hlookup] at h)
        (by intro a h; simp [hlookup] at h)
        (by intro os h; simp [hlookup] at h)
        (by intro o h; simp [hlookup] at h))
    rw [hr]
    rfl

/-- The key sequence after a dict insertion depends only on the prior key
sequence and the inserted key. -/
def keysAfter (ks : List String) (k : String) : List String :=
  if k ∈ ks then ks else ks ++ [k]

/-- `dinsert` transforms the key sequence by `keysAfter`. -/
theorem dinsert_fst (l : List (String × JVal)) (k : String) (v : JVal) :
    (dinsert l k v).map Prod.fst = keysAfter (l.map Prod.fst) k := by
  induction l with
  | nil => simp [dinsert, keysAfter]
  | cons p rest ih =>
    obtain ⟨k2, w⟩ := p
    by_cases hk : k2 = k
    · subst hk
      simp [dinsert, keysAfter]
    · simp only [dinsert, hk, if_false, List.map_cons, ih, keysAfter]
      by_cases hm : k ∈ rest.map Prod.fst
      · simp [hm, Ne.symm hk]
      · simp [hm, Ne.symm hk]

/-- The recursive-resolver field loop keeps the two accumulators on the
same key sequence. -/
theorem processFieldsLoop_keys (fs : List (String × JVal)) :
    ∀ ef cs ef2 cs2, ef.map Prod.fst = cs.map Prod.fst →
      processFieldsLoop fs (ef, cs) = .ok (ef2, cs2) →
      ef2.map Prod.fst = cs2.map Prod.fst := by
  induction fs with
  | nil =>
    intro ef cs ef2 cs2 hk h
    simp [processFieldsLoop] at h
    obtain ⟨h1, h2⟩ := h
    subst h1; subst h2
    exact hk
  | cons p rest ih =>
    intro ef cs ef2 cs2 hk h
    obtain ⟨name, info⟩ := p
    cases info with
    | dict ikvs =>
      simp only [processFieldsLoop] at h
      cases he : extract_field_value (.dict ikvs) with
      | error e => rw [he] at h; simp at h
      | ok v =>
        rw [he] at h
        simp only [] at h
        exact ih _ _ _ _ (by rw [dinsert_fst, dinsert_fst, hk]) h
    | null => exact ih _ _ _ _ hk h
    | num q => exact ih _ _ _ _ hk h
    | str s => exact ih _ _ _ _ hk h
    | arr xs => exact ih _ _ _ _ hk h

/-- The `extractedFields` loop keeps the two accumulators on the same key
sequence. -/
theorem extractedFieldsLoop_keys (fs : List (String × JVal)) :
    ∀ ef cs, ef.map Prod.fst = cs.map Prod.fst →
      (extractedFieldsLoop fs (ef, cs)).1.map Prod.fst
        = (extractedFieldsLoop fs (ef, cs)).2.map Prod.fst := by
  induction fs with
  | nil => intro ef cs hk; exact hk
  | cons p rest ih =>
    intro ef cs hk
    obtain ⟨name, info⟩ := p
    cases info with
    | dict ikvs =>
      simp only [extractedFieldsLoop]
      exact ih _ _ (by rw [dinsert_fst, dinsert_fst, hk])
    | null => exact ih _ _ hk
    | num q => exact ih _ _ hk
    | str s => exact ih _ _ hk
    | arr xs => exact ih _ _ hk

/-- Canonicalization produces field and confidence maps over the same key
sequence, whichever branch is taken. -/
theorem extractMaps_keys (ar : List (String × JVal))
    (ef cs : List (String × JVal)) (h : extractMaps ar = .ok (ef, cs)) :
    ef.map Prod.fst = cs.map Prod.fst := by
  simp only [extractMaps] at h
  cases hc : hlookup ar "contents" with
  | some contents =>
    simp only [hc, contentsBranch] at h
    by_cases ht : pyTruthy contents
    · rw [if_pos ht] at h
      cases hl : pyLen contents with
      | error e => simp [hl] at h
      | ok n =>
        simp only [hl] at h
        by_cases hn : n > 0
        · rw [if_pos hn] at h
          cases hi : pyIndex0 contents with
          | error e => simp [hi] at h
          | ok content =>
            simp only [hi] at h
            cases hf : pyIn "fields" content with
            | error e => simp [hf] at h
            | ok b =>
              cases b with
              | true =>
                simp only [hf] at h
                cases hg : pyGetItem content "fields" with
                | error e => simp [hg] at h
                | ok fd =>
                  cases fd with
                  | dict fs =>
                    simp only [hg] at h
                    exact processFieldsLoop_keys fs [] [] ef cs rfl h
                  | null => simp [hg] at h
                  | num q => simp [hg] at h
                  | str s => simp [hg] at h
                  | arr xs => simp [hg] at h
              | false =>
                simp only [hf] at h
                cases hf2 : pyIn "extractedFields" content with
                | error e => simp [hf2] at h
                | ok b2 =>
                  cases b2 with
                  | true =>
                    simp only [hf2] at h
                    cases hg : pyGetItem content "extractedFields" with
                    | error e => simp [hg] at h
                    | ok fd =>
                      cases fd with
                      | dict fs =>
                        simp only [hg, Except.ok.injEq] at h
                        have h2 := extractedFieldsLoop_keys fs [] [] rfl
                        rw [h] at h2
                        exact h2
                      | null => simp [hg] at h
                      | num q => simp [hg] at h
                      | str s => simp [hg] at h
                      | arr xs => simp [hg] at h
                  | false =>
                    simp only [hf2, Except.ok.injEq, Prod.mk.injEq] at h
                    obtain ⟨h1, h2⟩ := h
                    subst h1; subst h2
                    rfl
        · rw [if_neg hn] at h
          simp only [Except.ok.injEq, Prod.mk.injEq] at h
          obtain ⟨h1, h2⟩ := h
          subst h1; subst h2
          rfl
    · rw [if_neg ht] at h
      simp only [Except.ok.injEq, Prod.mk.injEq] at h
      obtain ⟨h1, h2⟩ := h
      subst h1; subst h2
      rfl
  | none =>
    simp only [hc] at h
    cases hd : hlookup ar "documents" with
    | some documents =>
      simp only [hd, documentsBranch] at h
      by_cases ht : pyTruthy documents
      · rw [if_pos ht] at h
        cases hi : pyIndex0 documents with
        | error e => simp [hi] at h
        | ok document =>
          cases document with
          | dict dkvs =>
            simp only [hi] at h
            cases hfv : (match hlookup dkvs "fields" with
              | some f => f
              | none => JVal.dict []) with
            | dict fs =>
              rw [hfv] at h
              exact processFieldsLoop_keys fs [] [] ef cs rfl h
            | null => rw [hfv] at h; simp at h
            | num q => rw [hfv] at h; simp at h
            | str s => rw [hfv] at h; simp at h
            | arr xs => rw [hfv] at h; simp at h
          | null => simp [hi] at h
          | num q => simp [hi] at h
          | str s => simp [hi] at h
          | arr xs => simp [hi] at h
      · rw [if_neg ht] at h
        simp only [Except.ok.injEq, Prod.mk.injEq] at h
        obtain ⟨h1, h2⟩ := h
        subst h1; subst h2
        rfl
    | none =>
      simp only [hd, Except.ok.injEq, Prod.mk.injEq] at h
      obtain ⟨h1, h2⟩ := h
      subst h1; subst h2
      rfl

/-- What `summarize` guarantees about a successful result: the two maps are
returned as given and the reported total is the length of the extracted
map (zero in the no-data case). -/
theorem summarize_ok (ef cs : List (String × JVal)) (p : Processed)
    (h : summarize ef cs = .ok p) :
    p.extracted_fields = ef ∧ p.confidence_scores = cs
    ∧ p.summary.total_fields_extracted
        = (if (cs.map Prod.snd).isEmpty then 0 else ef.length) := by
  simp only [summarize] at h
  by_cases he : (cs.map Prod.snd).isEmpty
  · rw [if_pos he] at h
    simp only [Except.ok.injEq] at h
    subst h
    simp [he]
  · rw [if_neg he] at h
    cases ht : toNums (cs.map Prod.snd) with
    | error e => rw [ht] at h; simp at h
    | ok qs =>
      rw [ht] at h
      simp only [Except.ok.injEq] at h
      subst h
      simp [he]

/-- Claim C7: after canonicalization the extracted-fields map and the
confidence-scores map have the same key sequence (hence the same length),
and the reported total field count equals that common length. -/
theorem c7_canonicalization_invariant (ar : List (String × JVal)) (p : Processed)
    (h : process_custom_extraction ar = .ok p) :
    p.extracted_fields.map Prod.fst = p.confidence_scores.map Prod.fst
    ∧ p.summary.total_fields_extracted = p.extracted_fields.length
    ∧ p.extracted_fields.length = p.confidence_scores.length := by
  simp only [process_custom_extraction] at h
  cases hm : extractMaps ar with
  | error e => rw [hm] at h; simp at h
  | ok pr =>
    obtain ⟨ef, cs⟩ := pr
    simp only [hm] at h
    have hkeys := extractMaps_keys ar ef cs hm
    obtain ⟨h1, h2, h3⟩ := summarize_ok ef cs p h
    have hlen : ef.length = cs.length := by
      have := congrArg List.length hkeys
      simpa using this
    rw [h1, h2]
    refine ⟨hkeys, ?_, hlen⟩
    rw [h3]
    by_cases he : (cs.map Prod.snd).isEmpty
    · rw [if_pos he]
      simp [List.isEmpty_iff] at he
      subst he
      rw [List.length_nil] at hlen
      omega
    · rw [if_neg he]

/-- Concrete raw result used by the C7 witness: one `extractedFields`
entry with value `x` and confidence 0.9. -/
def c7input : List (String × JVal) :=
  [("contents", .arr [.dict [("extractedFields", .dict
    [("a", .dict [("value", .str "x"), ("confidence", .num 0.9)])])]])]

/-- Canonicalized output of `c7input`. -/
def c7Processed : Processed :=
  { extraction_type := "custom_schema"
    extracted_fields := [("a", JVal.str "x")]
    confidence_scores := [("a", JVal.num 0.9)]
    summary :=
      { total_fields_extracted := 1
        fields_with_high_confidence := 1
        fields_with_medium_confidence := 0
        fields_with_low_confidence := 0
        average_confidence := 0.9
        extraction_quality := "good" } }

/-- `c7input` canonicalizes to `c7Processed`: the extraction phase computes
the two singleton maps, and the summary phase fills in the statistics. -/
theorem c7input_eval : process_custom_extraction c7input = .ok c7Processed := by
  show summarize [("a", JVal.str "x")] [("a", JVal.num 0.9)] = .ok c7Processed
  norm_num [summarize, toNums, c7Processed, highConfidenceCount,
    mediumConfidenceCount, lowConfidenceCount, avg_confidence,
    high_confidence_ratio, assess_extraction_quality, List.filter, List.sum]

/-- Witness for C7: the invariant holds on the canonicalization of
`c7input`. -/
theorem c7_canonicalization_invariant_witness :
    c7Processed.extracted_fields.map Prod.fst
      = c7Processed.confidence_scores.map Prod.fst
    ∧ c7Processed.summary.total_fields_extracted
      = c7Processed.extracted_fields.length
    ∧ c7Processed.extracted_fields.length
      = c7Processed.confidence_scores.length :=
  c7_canonicalization_invariant c7input c7Processed c7input_eval

/-- The canonicalizer output when nothing is extracted. -/
def emptyProcessed : Processed :=
  { extraction_type := "custom_schema"
    extracted_fields := []
    confidence_scores := []
    summary :=
      { total_fields_extracted := 0
        fields_with_high_confidence := 0
        fields_with_medium_confidence := 0
        fields_with_low_confidence := 0
        average_confidence := 0
        extraction_quality := "no_data" } }

/-- Finish canonicalization from an extraction-phase outcome: propagate the
exception or compute the summary. -/
def canonicalizeFrom
    (r : Except String (List (String × JVal) × List (String × JVal))) :
    Except String Processed :=
  match r with
  | .error e => .error e
  | .ok (ef, cs) => summarize ef cs

/-- The fields dictionary of the first document of `c1input`. -/
def c1docFields : List (String × JVal) :=
  [("a", .dict [("valueString", .str "x"), ("confidence", .num 0.95)])]

/-- Counterexample input to C1: `contents` present but empty while
`documents` is present and non-empty with a resolvable field. -/
def c1input : List (String × JVal) :=
  [("contents", .arr []),
   ("documents", .arr [.dict [("fields", .dict c1docFields)]])]

/-- Counterexample to C1 as stated: on `c1input` the canonicalizer returns
empty mappings — the `elif` never reaches the `documents` branch when the
`contents` key is present, even empty — although the first document's
fields would resolve to a non-empty mapping. -/
theorem c1_counterexample :
    process_custom_extraction c1input = .ok emptyProcessed
    ∧ emptyProcessed.extracted_fields = []
    ∧ hlookup c1input "documents"
        = some (.arr [.dict [("fields", .dict c1docFields)]])
    ∧ processFieldsLoop c1docFields ([], [])
        = .ok ([("a", JVal.str "x")], [("a", JVal.num 0.95)])
    ∧ [("a", JVal.str "x")] ≠ ([] : List (String × JVal)) := by
  refine ⟨rfl, rfl, rfl, ?_, by simp⟩
  simp [processFieldsLoop, c1docFields, extract_field_value_dict, hlookup, dinsert]

/-- Claim C1 as amended: canonicalization shape priority.  When `contents`
is present and non-empty, only its first element is used: a `fields`
mapping goes through the recursive per-field loop (resolver plus confidence
default 0), else an `extractedFields` mapping contributes each entry's
`value` key directly; the `documents` branch — the first document's
`fields`, resolved by the same recursive loop — runs only when the
`contents` key is absent; when `contents` is present but empty both output
mappings are empty even if `documents` is present and non-empty; and with
neither key both output mappings are empty.  Mapping entries are the only
ones processed: a non-mapping entry is skipped, a mapping entry without
`confidence` records confidence 0, and in the `extractedFields` branch the
`value` key is taken without recursion. -/
theorem c1_shape_priority :
    (∀ ar, hlookup ar "contents" = none → hlookup ar "documents" = none →
      process_custom_extraction ar = .ok emptyProcessed)
    ∧ (∀ ar, hlookup ar "contents" = some (.arr []) →
      process_custom_extraction ar = .ok emptyProcessed)
    ∧ (∀ ar ckvs rest fs, hlookup ar "contents" = some (.arr (.dict ckvs :: rest)) →
      hlookup ckvs "fields" = some (.dict fs) →
      process_custom_extraction ar = canonicalizeFrom (processFieldsLoop fs ([], [])))
    ∧ (∀ ar ckvs rest fs, hlookup ar "contents" = some (.arr (.dict ckvs :: rest)) →
      hlookup ckvs "fields" = none →
      hlookup ckvs "extractedFields" = some (.dict fs) →
      process_custom_extraction ar
        = canonicalizeFrom (.ok (extractedFieldsLoop fs ([], []))))
    ∧ (∀ ar dkvs ds fs, hlookup ar "contents" = none →
      hlookup ar "documents" = some (.arr (.dict dkvs :: ds)) →
      hlookup dkvs "fields" = some (.dict fs) →
      process_custom_extraction ar = canonicalizeFrom (processFieldsLoop fs ([], [])))
    ∧ (∀ name inf rest ef cs, (∀ ikvs, inf ≠ .dict ikvs) →
      processFieldsLoop ((name, inf) :: rest) (ef, cs) = processFieldsLoop rest (ef, cs))
    ∧ (∀ name ikvs rest ef cs v, extract_field_value (.dict ikvs) = .ok v →
      hlookup ikvs "confidence" = none →
      processFieldsLoop ((name, .dict ikvs) :: rest) (ef, cs)
        = processFieldsLoop rest (dinsert ef name v, dinsert cs name (.num 0)))
    ∧ (∀ name ikvs rest ef cs v, hlookup ikvs "value" = some v →
      hlookup ikvs "confidence" = none →
      extractedFieldsLoop ((name, .dict ikvs) :: rest) (ef, cs)
        = extractedFieldsLoop rest (dinsert ef name v, dinsert cs name (.num 0))) := by
  refine ⟨?_, ?_, ?_, ?_, ?_, ?_, ?_, ?_⟩
  · intro ar h1 h2
    simp only [process_custom_extraction, extractMaps, h1, h2]
    rfl
  · intro ar h
    simp only [process_custom_extraction, extractMaps, h]
    rfl
  · intro ar ckvs rest fs h1 h2
    simp only [process_custom_extraction, extractMaps, h1, contentsBranch,
      pyTruthy, pyLen, pyIndex0, pyIn, pyGetItem, h2]
    simp only [List.isEmpty_cons, Bool.not_false, if_true, Option.isSome_some]
    cases hpl : processFieldsLoop fs ([], []) with
    | error e => simp [canonicalizeFrom, hpl]
    | ok pr =>
      obtain ⟨ef, cs⟩ := pr
      simp [canonicalizeFrom, hpl]
  · intro ar ckvs rest fs h1 h2 h3
    simp only [process_custom_extraction, extractMaps, h1, contentsBranch,
      pyTruthy, pyLen, pyIndex0, pyIn, pyGetItem, h2, h3]
    simp [canonicalizeFrom]
  · intro ar dkvs ds fs h1 h2 h3
    simp only [process_custom_extraction, extractMaps, h1, h2, documentsBranch,
      pyTruthy, pyIndex0, h3]
    simp only [List.isEmpty_cons, Bool.not_false, if_true]
    cases hpl : processFieldsLoop fs ([], []) with
    | error e => simp [canonicalizeFrom, hpl]
    | ok pr =>
      obtain ⟨ef, cs⟩ := pr
      simp [canonicalizeFrom, hpl]
  · intro name inf rest ef cs h
    cases inf with
    | dict ikvs => exact absurd rfl (h ikvs)
    | null => rfl
    | num q => rfl
    | str s => rfl
    | arr xs => rfl
  · intro name ikvs rest ef cs v h1 h2
    simp [processFieldsLoop, h1, h2]
  · intro name ikvs rest ef cs v h1 h2
    simp [extractedFieldsLoop, h1, h2]

/-- Witness for C1: the documents-branch conjunct applied to a concrete
raw result with no `contents` key. -/
theorem c1_shape_priority_witness :
    process_custom_extraction
        [("documents", .arr [.dict [("fields", .dict c1docFields)]])]
      = canonicalizeFrom (processFieldsLoop c1docFields ([], [])) :=
  c1_shape_priority.2.2.2.2.1
    [("documents", .arr [.dict [("fields", .dict c1docFields)]])]
    [("fields", .dict c1docFields)] [] c1docFields rfl rfl rfl
